import Mathlib

/-!
# Verification of `envwrap` (`src/envwrap/__init__.py`)

A shallow embedding of the `envwrap` decorator: a wrapped callable's default
parameter values can be overridden by process environment variables whose
names start with a configured prefix; call-site keyword arguments take
precedence over environment overrides, which take precedence over declared
defaults.

Modelling choices, all mirroring the Python source:
* Python runtime values appearing in this library's data flow are modelled by
  `PyVal` (None, int, float, str, bool, and class objects, which arise from
  `type(...)` applications).  The wrapper never performs float arithmetic — it
  only parses decimal strings and passes the values through — so a float is
  modelled exactly as a canonical decimal fraction `m / 10^e` (trailing
  zeros stripped), on which equality coincides with Python `==` for the
  finite decimals involved.
* A raised exception is modelled by `Except PyExc`; `PyExc` distinguishes
  `KeyError` (which `final_callable` catches in the `types` fallback branch)
  from all other exception classes.
* A Python `dict` is an insertion-ordered association list with unique keys;
  `dictInsert` overwrites an existing key in place (keeping its position) and
  otherwise appends, exactly like CPython assignment, and `dictMerge a b` is
  `{**a, **b}`.
* A type annotation is modelled by its ordered candidate-constructor list:
  `some [c]` for a plain annotation, `some [c1, c2, ...]` for a union type
  whose `__args__` enumerate in declaration order (line 143 of the source,
  `getattr(param.annotation, "__args__", (param.annotation,))`), `none` for an
  unannotated parameter.  A candidate constructor, like an entry of the
  caller-supplied `types` mapping, is an arbitrary one-argument callable on
  the raw string, `Conv`.
* Positional call-site arguments are passed through untouched by the source
  (line 162) and do not interact with the keyword merge, so the observable
  behaviour of one call is the `Except`-valued final keyword mapping that the
  wrapper passes to the underlying callable.
-/

namespace Envwrap

/-- Python classes that occur as values or as conversion constructors here.
`metatype` is the metaclass `type` itself: it shows up because
`type(inspect.Parameter.empty)` is `type` (the `empty` sentinel is a class). -/
inductive PyType where
  | int
  | float
  | str
  | bool
  | noneType
  | metatype
  deriving DecidableEq

/-- Python runtime values flowing through the wrapper.  `typeObj` is a class
object used as a first-class value (e.g. the result of `type("42")`). -/
inductive PyVal where
  | none
  | int (n : Int)
  | float (m : Int) (e : Nat)
  | str (s : String)
  | bool (b : Bool)
  | typeObj (t : PyType)
  deriving DecidableEq

/-- Python exceptions, distinguishing `KeyError` (the only class the source
catches by name, line 155) from everything else. -/
inductive PyExc where
  | keyError
  | valueError
  | typeError
  | other (msg : String)
  deriving DecidableEq

instance {ε α : Type} [DecidableEq ε] [DecidableEq α] : DecidableEq (Except ε α) := fun x y =>
  match x, y with
  | .error a, .error b =>
    if h : a = b then .isTrue (by rw [h]) else .isFalse (fun hh => h (by cases hh; rfl))
  | .ok a, .ok b =>
    if h : a = b then .isTrue (by rw [h]) else .isFalse (fun hh => h (by cases hh; rfl))
  | .error _, .ok _ => .isFalse (fun hh => Except.noConfusion hh)
  | .ok _, .error _ => .isFalse (fun hh => Except.noConfusion hh)

/-- A one-argument Python callable applied to a raw environment string:
either returns a value or raises. -/
def Conv : Type := String → Except PyExc PyVal

/-- A parameter's declared default: either the `inspect.Parameter.empty`
sentinel (no default declared) or an actual default value. -/
inductive DefaultVal where
  | empty
  | val (v : PyVal)
  deriving DecidableEq

/-- One entry of `inspect.signature(func).parameters`: the name, the optional
annotation (as its ordered candidate-constructor list), and the default. -/
structure Param where
  name : String
  annot : Option (List Conv)
  default : DefaultVal

/-! ## Python dictionary primitives (insertion-ordered, unique keys) -/

/-- `d[k]` as an `Option`: first (i.e. unique, for a real dict) binding. -/
def dictGet {α : Type} : List (String × α) → String → Option α
  | [], _ => Option.none
  | (k, v) :: rest, key => if k = key then some v else dictGet rest key

/-- `d[k] = v`: overwrite in place if the key exists, else append. -/
def dictInsert {α : Type} : List (String × α) → String → α → List (String × α)
  | [], key, v => [(key, v)]
  | (k, w) :: rest, key, v =>
    if k = key then (k, v) :: rest else (k, w) :: dictInsert rest key v

/-- `{**a, **b}`: iterate `b`'s items over a copy of `a`, later wins. -/
def dictMerge {α : Type} (a b : List (String × α)) : List (String × α) :=
  b.foldl (fun m kv => dictInsert m kv.1 kv.2) a

/-- Last binding of a key in an association list (what repeated `dictInsert`
resolves to when the input list may repeat keys). -/
def lookupLast {α : Type} : List (String × α) → String → Option α
  | [], _ => Option.none
  | (k, v) :: rest, key =>
    match lookupLast rest key with
    | some w => some w
    | Option.none => if k = key then some v else Option.none

/-- The keys of an association list are pairwise distinct. -/
def nodupKeys {α : Type} (m : List (String × α)) : Prop :=
  (m.map Prod.fst).Nodup

/-! ## String primitives mirroring the Python expressions -/

/-- `k.startswith(p)` (line 136). -/
def pyStartsWith (k p : String) : Bool :=
  p.toList.isPrefixOf k.toList

/-- `k[len(p):]` (line 136): drop the leading `len(p)` code points. -/
def pyDropPre (k p : String) : String :=
  String.mk (k.toList.drop p.toList.length)

/-- `s.lower()` (line 136), on the ASCII names involved. -/
def pyLower (s : String) : String :=
  String.mk (s.toList.map Char.toLower)

/-! ## Type constructors (`int`, `float`, `str`, `bool`, `type` on strings) -/

/-- Numeric value of a digit list. -/
def digitsVal (cs : List Char) : Nat :=
  cs.foldl (fun a c => a * 10 + (c.toNat - 48)) 0

/-- Strip leading and trailing whitespace (`int`/`float` accept it). -/
def trimWS (cs : List Char) : List Char :=
  ((cs.dropWhile Char.isWhitespace).reverse.dropWhile Char.isWhitespace).reverse

/-- Core of `int(s)`: optional sign followed by a nonempty digit run. -/
def pyParseIntCore (cs : List Char) : Option Int :=
  match cs with
  | '-' :: rest =>
    if rest ≠ [] ∧ rest.all Char.isDigit then some (-(digitsVal rest : Int)) else Option.none
  | '+' :: rest =>
    if rest ≠ [] ∧ rest.all Char.isDigit then some ((digitsVal rest : Int)) else Option.none
  | _ =>
    if cs ≠ [] ∧ cs.all Char.isDigit then some ((digitsVal cs : Int)) else Option.none

/-- Strip factors of ten from a decimal fraction `m / 10^e`, making the
representation canonical. -/
def decCanon : Int → Nat → Int × Nat
  | m, 0 => (m, 0)
  | m, e + 1 => if m % 10 = 0 then decCanon (m / 10) e else (m, e + 1)

/-- Core of `float(s)`: optional sign, then `digits[.digits]` or `.digits`,
valued exactly as a canonical decimal fraction `m / 10^e`. -/
def pyParseFloatCore (cs : List Char) : Option (Int × Nat) :=
  let signed : List Char → Option (Int × Nat) := fun body =>
    let ip := body.takeWhile Char.isDigit
    let rest := body.dropWhile Char.isDigit
    match rest with
    | [] => if ip ≠ [] then some ((digitsVal ip : Int), 0) else Option.none
    | '.' :: fp =>
      if fp.all Char.isDigit ∧ (ip ≠ [] ∨ fp ≠ []) then
        some (decCanon ((digitsVal ip * 10 ^ fp.length + digitsVal fp : Nat) : Int) fp.length)
      else Option.none
    | _ => Option.none
  match cs with
  | '-' :: body => (signed body).map (fun p => (-p.1, p.2))
  | '+' :: body => signed body
  | _ => signed cs

/-- Calling a class as a one-argument constructor on a string, as the source
does in its three conversion branches. `int`/`float` raise `ValueError` on a
malformed string; `str` is the identity on strings; `bool` is truthiness of
the string; `NoneType` rejects an argument; `type` (the metaclass, reached
via `type(inspect.Parameter.empty)`) returns the argument's class, `str`. -/
def applyType : PyType → Conv
  | .int => fun s =>
    match pyParseIntCore (trimWS s.toList) with
    | some n => .ok (.int n)
    | Option.none => .error .valueError
  | .float => fun s =>
    match pyParseFloatCore (trimWS s.toList) with
    | some p => .ok (.float p.1 p.2)
    | Option.none => .error .valueError
  | .str => fun s => .ok (.str s)
  | .bool => fun s => .ok (.bool (!s.isEmpty))
  | .noneType => fun _ => .error .typeError
  | .metatype => fun _ => .ok (.typeObj .str)

/-- `type(v)` of a runtime value. -/
def typeof : PyVal → PyType
  | .none => .noneType
  | .int _ => .int
  | .float _ _ => .float
  | .str _ => .str
  | .bool _ => .bool
  | .typeObj _ => .metatype

/-- `type(param.default)` (line 151), including the case where the default is
the `Parameter.empty` sentinel class, whose type is the metaclass `type`. -/
def type_of_default : DefaultVal → PyType
  | .empty => .metatype
  | .val v => typeof v

/-! ## The wrapper, layer by layer (lines 121-164 of the source) -/

/-- `is_likely_method` (lines 58-64): true iff the first declared parameter is
named `self` or `cls`; false for an empty parameter list. -/
def is_likely_method (params : List Param) : Bool :=
  match params with
  | [] => false
  | p :: _ => p.name = "self" || p.name = "cls"

/-- `is_method_explicit = is_method or is_likely_method(root_function)`
(line 125): Python `or` falls through to the heuristic when `is_method` is
`None` *or* `False`. -/
def is_method_explicit (is_method : Option Bool) (params : List Param) : Bool :=
  match is_method with
  | some b => b || is_likely_method params
  | Option.none => is_likely_method params

/-- `params_method_safe` (line 128): the eligible-for-override names — all
declared names, minus the first when classified as a method. -/
def params_method_safe (is_method : Option Bool) (params : List Param) : List String :=
  if is_method_explicit is_method params then (params.map Param.name).tail
  else params.map Param.name

/-- One step of the `env_overrides` dict comprehension (lines 135-137). -/
def envStep (pfx : String) (m : List (String × String)) (kv : String × String) :
    List (String × String) :=
  if pyStartsWith kv.1 pfx then dictInsert m (pyLower (pyDropPre kv.1 pfx)) kv.2 else m

/-- `env_overrides` (lines 135-137): scan the environment in iteration order;
for each key starting with the prefix, bind the prefix-stripped lower-cased
remainder to the raw value (a dict comprehension, so a later colliding key
overwrites an earlier one). -/
def env_overrides (pfx : String) (environ : List (String × String)) :
    List (String × String) :=
  environ.foldl (envStep pfx) []

/-- `overrides` (line 138): keep only candidates naming an eligible parameter. -/
def overridesFor (pfx : String) (eligible : List String)
    (environ : List (String × String)) : List (String × String) :=
  (env_overrides pfx environ).filter (fun kv => eligible.contains kv.1)

/-- `params[k]`: look a parameter up by name. -/
def findParam : List Param → String → Option Param
  | [], _ => Option.none
  | p :: rest, key => if p.name = key then some p else findParam rest key

/-- The annotation loop (lines 143-149): try each candidate constructor in
order on the raw string; `break` at the first success, `pass` on any
exception; if every candidate raises, the raw string stays. -/
def tryAnnot : List Conv → String → PyVal
  | [], raw => .str raw
  | c :: rest, raw =>
    match c raw with
    | .ok v => v
    | .error _ => tryAnnot rest raw

/-- Conversion of one override (lines 141-156): annotation-driven if
annotated (never raises); else default-type-driven when
`param.default is not None` — which also holds for the `empty` sentinel —
with no exception handling; else the `types` fallback, catching `KeyError`
only. -/
def convertOne (types : List (String × Conv)) (p : Param) (raw : String) :
    Except PyExc PyVal :=
  match p.annot with
  | some cands => .ok (tryAnnot cands raw)
  | Option.none =>
    if p.default ≠ DefaultVal.val PyVal.none then
      applyType (type_of_default p.default) raw
    else
      match dictGet types p.name with
      | Option.none => .ok (.str raw)
      | some conv =>
        match conv raw with
        | .ok v => .ok v
        | .error .keyError => .ok (.str raw)
        | .error e => .error e

/-- The `for k in overrides` loop (lines 140-156): convert each entry in
order; the first exception aborts the call. -/
def convertAll (types : List (String × Conv)) (params : List Param) :
    List (String × String) → Except PyExc (List (String × PyVal))
  | [] => .ok []
  | (k, raw) :: rest =>
    match findParam params k with
    | Option.none => .error .keyError
    | some p =>
      match convertOne types p raw with
      | .error e => .error e
      | .ok v =>
        match convertAll types params rest with
        | .error e => .error e
        | .ok vs => .ok ((k, v) :: vs)

/-- `default_kwargs` (line 158): every parameter with a declared default. -/
def default_kwargs (params : List Param) : List (String × PyVal) :=
  params.filterMap (fun p =>
    match p.default with
    | .empty => Option.none
    | .val v => some (p.name, v))

/-- `final_callable` (lines 134-162) with the wrap-time eligible list made
explicit: build and filter the environment overrides, convert them (an
exception here aborts the call), and produce the final keyword mapping
`{**default_kwargs, **overrides, **kwargs}` handed to the target. -/
def final_callable (pfx : String) (types : List (String × Conv)) (params : List Param)
    (eligible : List String) (environ : List (String × String))
    (kwargs : List (String × PyVal)) : Except PyExc (List (String × PyVal)) :=
  match convertAll types params (overridesFor pfx eligible environ) with
  | .error e => .error e
  | .ok ovr => .ok (dictMerge (dictMerge (default_kwargs params) ovr) kwargs)

/-- One call of the wrapped callable produced by `envwrap(prefix, types,
is_method)` applied to a target with the given parameters: the wrap-time
closure (lines 121-131) computes the eligible names once, and each call runs
`final_callable`. -/
def envwrap_call (pfx : String) (types : List (String × Conv)) (is_method : Option Bool)
    (params : List Param) (environ : List (String × String))
    (kwargs : List (String × PyVal)) : Except PyExc (List (String × PyVal)) :=
  final_callable pfx types params (params_method_safe is_method params) environ kwargs

/-! ## Concrete callables and inputs used by the scenario claims and the
concrete instantiations of the general theorems -/

/-- Parameters of the scenario function `f(a=1, b="default", c=3.14)`. -/
def fparams : List Param :=
  [⟨"a", Option.none, .val (.int 1)⟩,
   ⟨"b", Option.none, .val (.str "default")⟩,
   ⟨"c", Option.none, .val (.float 314 2)⟩]

/-- The scenario environment `TEST_A=42, TEST_B=override, TEST_C=2.718`. -/
def scenarioEnv : List (String × String) :=
  [("TEST_A", "42"), ("TEST_B", "override"), ("TEST_C", "2.718")]

/-- Invoking the scenario function `f`, whose body returns `(a, b, c)`:
run the wrapper and tuple the three argument values it passes. -/
def f_call (environ : List (String × String)) (kwargs : List (String × PyVal)) :
    Except PyExc (PyVal × PyVal × PyVal) :=
  match envwrap_call "TEST_" [] Option.none fparams environ kwargs with
  | .error e => .error e
  | .ok fk =>
    match dictGet fk "a", dictGet fk "b", dictGet fk "c" with
    | some x, some y, some z => .ok (x, y, z)
    | _, _, _ => .error .typeError

/-- A method-like parameter list: `m(self, x=1)`. -/
def mparams : List Param :=
  [⟨"self", Option.none, .empty⟩, ⟨"x", Option.none, .val (.int 1)⟩]

/-- `g(a=1)`: one unannotated parameter with default `1`. -/
def pA : Param := ⟨"a", Option.none, .val (.int 1)⟩

/-- `h(a)`: one parameter with neither annotation nor declared default. -/
def pNoDefault : Param := ⟨"a", Option.none, .empty⟩

/-- `h2(a=None)`: one unannotated parameter whose default is `None`. -/
def pNoneDefault : Param := ⟨"a", Option.none, .val .none⟩

/-- `k(x=5)`: one unannotated parameter with default `5`. -/
def pX5 : Param := ⟨"x", Option.none, .val (.int 5)⟩

/-- A converter that always raises `ValueError`. -/
def convFail : Conv := fun _ => .error .valueError

/-- `w(x: Union[Foo, int])`-style parameter: annotated with a union whose
first member always raises and whose second is `int`. -/
def pAnnot : Param := ⟨"x", some [convFail, applyType .int], .empty⟩

/-- `w2(x: Foo)`-style parameter: a plain annotation that always raises. -/
def pAnnotFail : Param := ⟨"x", some [convFail], .empty⟩

/-- A caller-supplied `types` mapping sending `"a"` to `int`. -/
def typesInt : List (String × Conv) := [("a", applyType .int)]

/-- A caller-supplied `types` mapping whose `"a"` entry always raises. -/
def typesFail : List (String × Conv) := [("a", convFail)]

/-- The scenario call-site keyword arguments `a=10, c=1.23`. -/
def kwC4 : List (String × PyVal) := [("a", .int 10), ("c", .float 123 2)]

end Envwrap

namespace Envwrap

/-! ## Dictionary lemmas -/

theorem dictGet_dictInsert {α : Type} (m : List (String × α)) (k key : String) (v : α) :
    dictGet (dictInsert m k v) key = if k = key then some v else dictGet m key := by
  induction m with
  | nil => simp [dictInsert, dictGet]
  | cons kv rest ih =>
    obtain ⟨k0, v0⟩ := kv
    by_cases h0 : k0 = k
    · subst h0
      by_cases hk : k0 = key <;> simp [dictInsert, dictGet, hk]
    · by_cases hk : k0 = key
      · subst hk
        have : k ≠ k0 := fun h => h0 h.symm
        simp [dictInsert, dictGet, h0, this]
      · simp [dictInsert, dictGet, h0, hk, ih]

theorem dictGet_eq_none_iff {α : Type} (m : List (String × α)) (key : String) :
    dictGet m key = Option.none ↔ key ∉ m.map Prod.fst := by
  induction m with
  | nil => simp [dictGet]
  | cons kv rest ih =>
    obtain ⟨k, v⟩ := kv
    by_cases hk : k = key
    · subst hk; simp [dictGet]
    · rw [List.map_cons]
      simp only [dictGet, if_neg hk, List.mem_cons, not_or]
      constructor
      · intro h
        exact ⟨fun hh => hk hh.symm, ih.mp h⟩
      · intro h
        exact ih.mpr h.2

theorem lookupLast_eq_none_iff {α : Type} (m : List (String × α)) (key : String) :
    lookupLast m key = Option.none ↔ dictGet m key = Option.none := by
  induction m with
  | nil => simp [lookupLast, dictGet]
  | cons kv rest ih =>
    obtain ⟨k, v⟩ := kv
    cases h : lookupLast rest key with
    | none =>
      have hrest : dictGet rest key = Option.none := ih.mp h
      by_cases hk : k = key <;> simp [lookupLast, dictGet, h, hk, hrest]
    | some w =>
      have hrest : dictGet rest key ≠ Option.none := by
        intro hh
        rw [← ih] at hh
        rw [h] at hh
        exact Option.noConfusion hh
      by_cases hk : k = key <;> simp [lookupLast, dictGet, h, hk, hrest]

theorem lookupLast_eq_dictGet {α : Type} (m : List (String × α)) (key : String)
    (h : nodupKeys m) : lookupLast m key = dictGet m key := by
  induction m with
  | nil => rfl
  | cons kv rest ih =>
    obtain ⟨k, v⟩ := kv
    have hnd : nodupKeys rest := (List.nodup_cons.mp h).2
    have hk0 : k ∉ rest.map Prod.fst := (List.nodup_cons.mp h).1
    by_cases hk : k = key
    · subst hk
      have : dictGet rest k = Option.none := (dictGet_eq_none_iff rest k).mpr hk0
      have hll : lookupLast rest k = Option.none := (lookupLast_eq_none_iff rest k).mpr this
      simp [lookupLast, dictGet, hll]
    · simp [lookupLast, dictGet, hk, ih hnd]
      cases hh : dictGet rest key <;> simp

theorem dictGet_dictMerge {α : Type} (a b : List (String × α)) (key : String) :
    dictGet (dictMerge a b) key =
      match lookupLast b key with
      | some v => some v
      | Option.none => dictGet a key := by
  induction b generalizing a with
  | nil => simp [dictMerge, lookupLast]
  | cons kv rest ih =>
    obtain ⟨k, v⟩ := kv
    have step : dictMerge a ((k, v) :: rest) = dictMerge (dictInsert a k v) rest := rfl
    rw [step, ih]
    cases h : lookupLast rest key with
    | some w => simp [lookupLast, h]
    | none =>
      by_cases hk : k = key <;>
        simp [lookupLast, h, hk, dictGet_dictInsert]

theorem keys_dictInsert {α : Type} (m : List (String × α)) (k : String) (v : α) :
    (dictInsert m k v).map Prod.fst =
      if k ∈ m.map Prod.fst then m.map Prod.fst else m.map Prod.fst ++ [k] := by
  induction m with
  | nil => simp [dictInsert]
  | cons kv rest ih =>
    obtain ⟨k0, v0⟩ := kv
    by_cases h0 : k0 = k
    · subst h0; simp [dictInsert]
    · have : k ≠ k0 := fun h => h0 h.symm
      by_cases hm : k ∈ rest.map Prod.fst <;>
        simp [dictInsert, h0, this, hm, ih]

theorem nodupKeys_dictInsert {α : Type} (m : List (String × α)) (k : String) (v : α)
    (h : nodupKeys m) : nodupKeys (dictInsert m k v) := by
  unfold nodupKeys at h ⊢
  rw [keys_dictInsert]
  by_cases hm : k ∈ m.map Prod.fst
  · simpa [hm] using h
  · simp only [hm, if_false]
    simp [List.nodup_append, h, hm]

theorem nodupKeys_filter {α : Type} (m : List (String × α)) (q : String × α → Bool)
    (h : nodupKeys m) : nodupKeys (m.filter q) :=
  List.Nodup.sublist (List.Sublist.map Prod.fst (List.filter_sublist m)) h

theorem nodupKeys_env_foldl (pfx : String) (l : List (String × String))
    (acc : List (String × String)) (h : nodupKeys acc) :
    nodupKeys (l.foldl (envStep pfx) acc) := by
  induction l generalizing acc with
  | nil => exact h
  | cons kv rest ih =>
    refine ih (envStep pfx acc kv) ?_
    unfold envStep
    by_cases hs : pyStartsWith kv.1 pfx
    · simpa [hs] using nodupKeys_dictInsert acc _ kv.2 h
    · simpa [hs] using h

theorem nodupKeys_env_overrides (pfx : String) (environ : List (String × String)) :
    nodupKeys (env_overrides pfx environ) :=
  nodupKeys_env_foldl pfx environ [] (by simp [nodupKeys])

theorem dictGet_filterKey {α : Type} (q : String → Bool) (m : List (String × α))
    (key : String) :
    dictGet (m.filter (fun kv => q kv.1)) key =
      if q key then dictGet m key else Option.none := by
  induction m with
  | nil => simp [dictGet]
  | cons kv rest ih =>
    obtain ⟨k, v⟩ := kv
    by_cases hq : q k
    · by_cases hk : k = key
      · subst hk; simp [List.filter, hq, dictGet]
      · simp [List.filter, hq, dictGet, hk, ih]
    · by_cases hk : k = key
      · subst hk; simp [List.filter, hq, dictGet, ih]
      · simp [List.filter, hq, dictGet, hk, ih]

theorem dictGet_overridesFor (pfx : String) (eligible : List String)
    (environ : List (String × String)) (key : String) :
    dictGet (overridesFor pfx eligible environ) key =
      if eligible.contains key then dictGet (env_overrides pfx environ) key
      else Option.none := by
  unfold overridesFor
  exact dictGet_filterKey (fun k => eligible.contains k) (env_overrides pfx environ) key

/-! ## Conversion-loop lemmas -/

theorem convertAll_ok_keys (types : List (String × Conv)) (params : List Param)
    (l : List (String × String)) (vs : List (String × PyVal))
    (h : convertAll types params l = .ok vs) : vs.map Prod.fst = l.map Prod.fst := by
  induction l generalizing vs with
  | nil =>
    unfold convertAll at h
    cases h
    rfl
  | cons kv rest ih =>
    obtain ⟨k, raw⟩ := kv
    unfold convertAll at h
    cases hfp : findParam params k with
    | none =>
      simp only [hfp] at h
      exact Except.noConfusion h
    | some p =>
      simp only [hfp] at h
      cases hcv : convertOne types p raw with
      | error e =>
        simp only [hcv] at h
        exact Except.noConfusion h
      | ok v =>
        simp only [hcv] at h
        cases hca : convertAll types params rest with
        | error e =>
          simp only [hca] at h
          exact Except.noConfusion h
        | ok vs' =>
          simp only [hca] at h
          cases h
          simp [ih vs' hca]

theorem convertAll_ok_get (types : List (String × Conv)) (params : List Param)
    (l : List (String × String)) (vs : List (String × PyVal))
    (h : convertAll types params l = .ok vs) (k : String) (raw : String)
    (hk : dictGet l k = some raw) :
    ∃ p v, findParam params k = some p ∧ convertOne types p raw = .ok v ∧
      dictGet vs k = some v := by
  induction l generalizing vs with
  | nil => exact absurd hk (by simp [dictGet])
  | cons kv rest ih =>
    obtain ⟨k0, raw0⟩ := kv
    unfold convertAll at h
    cases hfp : findParam params k0 with
    | none =>
      simp only [hfp] at h
      exact Except.noConfusion h
    | some p0 =>
      simp only [hfp] at h
      cases hcv : convertOne types p0 raw0 with
      | error e =>
        simp only [hcv] at h
        exact Except.noConfusion h
      | ok v0 =>
        simp only [hcv] at h
        cases hca : convertAll types params rest with
        | error e =>
          simp only [hca] at h
          exact Except.noConfusion h
        | ok vs' =>
          simp only [hca] at h
          cases h
          by_cases h0 : k0 = k
          · subst h0
            rw [show dictGet ((k0, raw0) :: rest) k0 = some raw0 from by simp [dictGet]] at hk
            cases hk
            exact ⟨p0, v0, hfp, hcv, by simp [dictGet]⟩
          · rw [show dictGet ((k0, raw0) :: rest) k = dictGet rest k from by
              simp [dictGet, h0]] at hk
            obtain ⟨p, v, h1, h2, h3⟩ := ih vs' hca hk
            exact ⟨p, v, h1, h2, by simp [dictGet, h0, h3]⟩

theorem convertAll_ok_get_none (types : List (String × Conv)) (params : List Param)
    (l : List (String × String)) (vs : List (String × PyVal))
    (h : convertAll types params l = .ok vs) (k : String)
    (hk : dictGet l k = Option.none) : dictGet vs k = Option.none := by
  rw [dictGet_eq_none_iff] at hk ⊢
  rw [convertAll_ok_keys types params l vs h]
  exact hk

theorem convertAll_append_error (types : List (String × Conv)) (params : List Param)
    (l1 : List (String × String)) (k : String) (raw : String)
    (l2 : List (String × String)) (p : Param) (err : PyExc)
    (h1 : ∀ kv ∈ l1, ∃ q v, findParam params kv.1 = some q ∧
      convertOne types q kv.2 = .ok v)
    (hp : findParam params k = some p) (he : convertOne types p raw = .error err) :
    convertAll types params (l1 ++ (k, raw) :: l2) = .error err := by
  induction l1 with
  | nil =>
    rw [List.nil_append]
    unfold convertAll
    simp only [hp, he]
  | cons kv rest ih =>
    obtain ⟨k0, raw0⟩ := kv
    obtain ⟨q, v, hq, hv⟩ := h1 (k0, raw0) (by simp)
    simp only [] at hq hv
    have ihh := ih (fun kv hkv => h1 kv (by simp [hkv]))
    rw [List.cons_append]
    unfold convertAll
    simp only [hq, hv, ihh]

/-! ## Default-layer lemma -/

theorem dictGet_default_kwargs (params : List Param) (name : String) (p : Param)
    (d : PyVal) (hp : findParam params name = some p)
    (hd : p.default = DefaultVal.val d) :
    dictGet (default_kwargs params) name = some d := by
  induction params with
  | nil => exact absurd hp (by simp [findParam])
  | cons q rest ih =>
    by_cases hq : q.name = name
    · unfold findParam at hp
      rw [if_pos hq] at hp
      cases hp
      unfold default_kwargs
      rw [List.filterMap_cons]
      rw [hd]
      simp [dictGet, hq]
    · unfold findParam at hp
      rw [if_neg hq] at hp
      unfold default_kwargs
      rw [List.filterMap_cons]
      cases hqd : q.default with
      | empty => exact ih hp
      | val w =>
        simp only []
        show dictGet ((q.name, w) :: default_kwargs rest) name = some d
        rw [show dictGet ((q.name, w) :: default_kwargs rest) name
            = dictGet (default_kwargs rest) name from by simp [dictGet, hq]]
        exact ih hp

/-! ## Shape of a successful call -/

theorem final_callable_ok (pfx : String) (types : List (String × Conv)) (params : List Param)
    (eligible : List String) (environ : List (String × String))
    (kwargs : List (String × PyVal)) (fk : List (String × PyVal))
    (hok : final_callable pfx types params eligible environ kwargs = .ok fk) :
    ∃ conv, convertAll types params (overridesFor pfx eligible environ) = .ok conv ∧
      fk = dictMerge (dictMerge (default_kwargs params) conv) kwargs := by
  unfold final_callable at hok
  cases hca : convertAll types params (overridesFor pfx eligible environ) with
  | error e =>
    simp only [hca] at hok
    exact Except.noConfusion hok
  | ok conv =>
    simp only [hca] at hok
    injection hok with h
    exact ⟨conv, rfl, h.symm⟩

theorem nodupKeys_convertAll (types : List (String × Conv)) (params : List Param)
    (l : List (String × String)) (vs : List (String × PyVal))
    (h : convertAll types params l = .ok vs) (hl : nodupKeys l) : nodupKeys vs := by
  unfold nodupKeys at hl ⊢
  rw [convertAll_ok_keys types params l vs h]
  exact hl

/-! ## Claim theorems -/

/-- C1: for every wrapped callable and eligible parameter `p` with declared
default `d`, on any invocation that reaches the underlying callable: a
call-site keyword value `c` is passed as is; otherwise, if the environment
override mapping binds `p` to raw string `e`, the converted `e` is passed;
otherwise `d` is passed. -/
theorem C1_precedence (pfx : String) (types : List (String × Conv))
    (is_method : Option Bool) (params : List Param)
    (environ : List (String × String)) (kwargs : List (String × PyVal))
    (p : Param) (d : PyVal) (fk : List (String × PyVal))
    (hp : findParam params p.name = some p)
    (hd : p.default = DefaultVal.val d)
    (hel : (params_method_safe is_method params).contains p.name = true)
    (hkw : nodupKeys kwargs)
    (hok : envwrap_call pfx types is_method params environ kwargs = .ok fk) :
    (∀ c, dictGet kwargs p.name = some c → dictGet fk p.name = some c) ∧
    (dictGet kwargs p.name = Option.none →
      ∀ e, dictGet (env_overrides pfx environ) p.name = some e →
        ∃ v, convertOne types p e = .ok v ∧ dictGet fk p.name = some v) ∧
    (dictGet kwargs p.name = Option.none →
      dictGet (env_overrides pfx environ) p.name = Option.none →
      dictGet fk p.name = some d) := by
  unfold envwrap_call at hok
  obtain ⟨conv, hca, hfk⟩ := final_callable_ok _ _ _ _ _ _ _ hok
  have hovnd : nodupKeys (overridesFor pfx (params_method_safe is_method params) environ) :=
    nodupKeys_filter _ _ (nodupKeys_env_overrides pfx environ)
  have hconvnd : nodupKeys conv := nodupKeys_convertAll _ _ _ _ hca hovnd
  have hflk : ∀ key, dictGet fk key =
      match dictGet kwargs key with
      | some v => some v
      | Option.none =>
        match dictGet conv key with
        | some v => some v
        | Option.none => dictGet (default_kwargs params) key := by
    intro key
    rw [hfk, dictGet_dictMerge, lookupLast_eq_dictGet kwargs key hkw]
    cases dictGet kwargs key with
    | some v => rfl
    | none =>
      show dictGet (dictMerge (default_kwargs params) conv) key =
        match dictGet conv key with
        | some v => some v
        | Option.none => dictGet (default_kwargs params) key
      rw [dictGet_dictMerge, lookupLast_eq_dictGet conv key hconvnd]
      cases dictGet conv key with
      | some v => rfl
      | none => rfl
  refine ⟨?_, ?_, ?_⟩
  · intro c hc
    rw [hflk p.name, hc]
  · intro hnone e he
    have hov : dictGet (overridesFor pfx (params_method_safe is_method params) environ)
        p.name = some e := by
      rw [dictGet_overridesFor]
      simp only [hel, if_true]
      exact he
    obtain ⟨p', v, hp', hcv, hgv⟩ := convertAll_ok_get _ _ _ _ hca p.name e hov
    rw [hp] at hp'
    injection hp' with hpp
    refine ⟨v, ?_, ?_⟩
    · rw [hpp]
      exact hcv
    · rw [hflk p.name, hnone, hgv]
  · intro hnone henv
    have hov : dictGet (overridesFor pfx (params_method_safe is_method params) environ)
        p.name = Option.none := by
      rw [dictGet_overridesFor, henv]
      exact ite_self _
    have hcg : dictGet conv p.name = Option.none :=
      convertAll_ok_get_none _ _ _ _ hca p.name hov
    rw [hflk p.name, hnone, hcg]
    exact dictGet_default_kwargs params p.name p d hp hd

/-- C1 witness: concrete instantiation with `g(a=1)`, prefix `TEST_`, the
environment `TEST_A=42` and no call-site arguments: the wrapper passes
`a = 42`. -/
theorem C1_precedence_witness :
    envwrap_call "TEST_" [] Option.none [pA] [("TEST_A", "42")] []
      = .ok [("a", PyVal.int 42)] ∧
    dictGet [("a", PyVal.int 42)] "a" = some (PyVal.int 42) := by
  constructor
  · decide
  · have h := C1_precedence "TEST_" [] Option.none [pA] [("TEST_A", "42")] [] pA
      (PyVal.int 1) [("a", PyVal.int 42)] rfl rfl (by decide) (by simp [nodupKeys])
      (by decide)
    obtain ⟨v, hcv, hgv⟩ := h.2.1 (by decide) "42" (by decide)
    rw [show convertOne ([] : List (String × Conv)) pA "42" = Except.ok (PyVal.int 42)
      from rfl] at hcv
    injection hcv with hv
    rw [← hv] at hgv
    exact hgv

/-- C2 counterexample: for `m(self, x=1)` wrapped with `is_method` explicitly
`False`, the first parameter `self` is still excluded from the eligible set
(the heuristic fires because `False or is_likely_method(...)` falls through),
so a matching environment variable never reaches it — contradicting the
claim that an explicit `False` makes every declared parameter eligible. -/
theorem C2_counterexample :
    params_method_safe (some false) mparams = ["x"] ∧
    "self" ∉ params_method_safe (some false) mparams ∧
    overridesFor "TEST_" (params_method_safe (some false) mparams)
      [("TEST_SELF", "9")] = [] := by
  decide

/-- C2 (amended): `is_method` overrides the heuristic only when it is
explicitly `True`; an explicit `False` behaves exactly like leaving it unset,
because line 125 computes `is_method or is_likely_method(root_function)`. -/
theorem C2_is_method_flag (params : List Param) :
    is_method_explicit (some true) params = true ∧
    is_method_explicit (some false) params = is_likely_method params ∧
    is_method_explicit Option.none params = is_likely_method params ∧
    params_method_safe (some false) params = params_method_safe Option.none params := by
  refine ⟨by simp [is_method_explicit], by simp [is_method_explicit], rfl, ?_⟩
  simp [params_method_safe, is_method_explicit]

/-- C3 counterexample: for `h(a)` — no annotation, no declared default — with
`types = {"a": int}` and `TEST_A=42`, the claim predicts the `types` entry is
applied (value `42`); the code instead takes the default-type branch, because
`inspect.Parameter.empty is not None`, and `type(Parameter.empty)("42")`
evaluates to the class `str`, which is what gets passed. -/
theorem C3_counterexample :
    envwrap_call "TEST_" typesInt Option.none [pNoDefault] [("TEST_A", "42")] []
      = .ok [("a", PyVal.typeObj PyType.str)] ∧
    (dictGet typesInt "a").isSome = true ∧
    PyVal.typeObj PyType.str ≠ PyVal.int 42 := by
  refine ⟨by decide, ?_, by decide⟩
  rfl

/-- C3 (amended): the caller-supplied `types` fallback is reached exactly for
parameters with no annotation whose declared default is literally `None`:
there, a missing entry keeps the raw string and a present, succeeding entry is
applied; a parameter with no declared default at all instead takes the
default-type branch with `type(Parameter.empty)`, i.e. the metaclass `type`,
so its override value becomes the class `str`. -/
theorem C3_types_fallback (types : List (String × Conv)) (p : Param) (e : String)
    (ha : p.annot = Option.none) :
    (p.default = DefaultVal.val PyVal.none →
      ((dictGet types p.name = Option.none → convertOne types p e = .ok (.str e)) ∧
       (∀ conv v, dictGet types p.name = some conv → conv e = .ok v →
          convertOne types p e = .ok v))) ∧
    (p.default = DefaultVal.empty →
      convertOne types p e = .ok (.typeObj PyType.str)) := by
  constructor
  · intro hd
    constructor
    · intro hg
      simp [convertOne, ha, hd, hg]
    · intro conv v hg hv
      simp [convertOne, ha, hd, hg, hv]
  · intro hd
    simp [convertOne, ha, hd, type_of_default, applyType]

/-- C3 witness: for `h2(a=None)` with `types = {"a": int}` and raw string
`"42"`, the `types` entry applies and the value `42` is installed. -/
theorem C3_types_fallback_witness :
    convertOne typesInt pNoneDefault "42" = .ok (PyVal.int 42) := by
  have h := C3_types_fallback typesInt pNoneDefault "42" rfl
  exact (h.1 rfl).2 (applyType PyType.int) (PyVal.int 42) rfl (by decide)

/-- C4 counterexample: with `TEST_A/TEST_B/TEST_C` still set, the call
`f(a=10, c=1.23)` passes `b = "override"` pulled from the environment — not
`b = "default"` as the claim states (the repository's own test clears the
environment before this call). -/
theorem C4_counterexample :
    f_call scenarioEnv kwC4 = .ok (.int 10, .str "override", .float 123 2) ∧
    f_call scenarioEnv kwC4 ≠ .ok (.int 10, .str "default", .float 123 2) := by
  constructor
  · decide
  · decide

/-- C4 (amended): the scenario holds with the third call corrected: with no
environment, `f()` returns the declared defaults; with the three variables
set, `f()` returns the converted overrides; with them still set,
`f(a=10, c=1.23)` returns `(10, "override", 1.23)`; and after clearing them,
`f(a=10, c=1.23)` returns `(10, "default", 1.23)`. -/
theorem C4_scenario :
    f_call [] [] = .ok (.int 1, .str "default", .float 314 2) ∧
    f_call scenarioEnv [] = .ok (.int 42, .str "override", .float 2718 3) ∧
    f_call scenarioEnv kwC4 = .ok (.int 10, .str "override", .float 123 2) ∧
    f_call [] kwC4 = .ok (.int 10, .str "default", .float 123 2) := by
  refine ⟨by decide, by decide, by decide, by decide⟩

theorem tryAnnot_append_ok (pre : List Conv) (c : Conv) (post : List Conv)
    (e : String) (v : PyVal)
    (hfail : ∀ c' ∈ pre, ∃ err, c' e = .error err) (hv : c e = .ok v) :
    tryAnnot (pre ++ c :: post) e = v := by
  induction pre with
  | nil =>
    rw [List.nil_append]
    unfold tryAnnot
    simp only [hv]
  | cons c0 rest ih =>
    obtain ⟨err, herr⟩ := hfail c0 (by simp)
    rw [List.cons_append]
    unfold tryAnnot
    simp only [herr]
    exact ih (fun c' hc' => hfail c' (by simp [hc']))

theorem tryAnnot_all_fail (cands : List Conv) (e : String)
    (hfail : ∀ c ∈ cands, ∃ err, c e = .error err) :
    tryAnnot cands e = .str e := by
  induction cands with
  | nil => rfl
  | cons c rest ih =>
    obtain ⟨err, herr⟩ := hfail c (by simp)
    unfold tryAnnot
    simp only [herr]
    exact ih (fun c' hc' => hfail c' (by simp [hc']))

/-- C5: for an annotated eligible parameter, the override string is converted
by trying the annotation's candidate constructors in declaration order: the
conversion step never raises (so no error ever surfaces from it); the first
candidate that does not raise determines the value; and if every candidate
raises, the raw unconverted string is used. -/
theorem C5_annot_conversion (types : List (String × Conv)) (p : Param)
    (cands : List Conv) (e : String) (ha : p.annot = some cands) :
    (∃ v, convertOne types p e = .ok v) ∧
    (∀ pre c post, cands = pre ++ c :: post →
      (∀ c' ∈ pre, ∃ err, c' e = .error err) →
      ∀ v, c e = .ok v → convertOne types p e = .ok v) ∧
    ((∀ c ∈ cands, ∃ err, c e = .error err) → convertOne types p e = .ok (.str e)) := by
  have hbase : convertOne types p e = .ok (tryAnnot cands e) := by
    simp [convertOne, ha]
  refine ⟨⟨tryAnnot cands e, hbase⟩, ?_, ?_⟩
  · intro pre c post hsplit hfail v hv
    rw [hbase, hsplit]
    rw [tryAnnot_append_ok pre c post e v hfail hv]
  · intro hfail
    rw [hbase, tryAnnot_all_fail cands e hfail]

/-- C5 witness: for `w(x: Union[Foo, int])` where `Foo("7")` raises, the
override string `"7"` converts to `7` via the second candidate. -/
theorem C5_annot_conversion_witness :
    convertOne [] pAnnot "7" = .ok (PyVal.int 7) := by
  have h := C5_annot_conversion [] pAnnot [convFail, applyType PyType.int] "7" rfl
  refine h.2.1 [convFail] (applyType PyType.int) [] rfl ?_ (PyVal.int 7) (by decide)
  intro c' hc'
  rw [List.mem_singleton] at hc'
  subst hc'
  exact ⟨.valueError, rfl⟩

/-- An exception raised while converting one override entry aborts the whole
call with that exception, provided every entry before it converts. -/
theorem final_callable_error (pfx : String) (types : List (String × Conv))
    (params : List Param) (eligible : List String) (environ : List (String × String))
    (kwargs : List (String × PyVal)) (l1 l2 : List (String × String))
    (k raw : String) (p : Param) (err : PyExc)
    (hsplit : overridesFor pfx eligible environ = l1 ++ (k, raw) :: l2)
    (h1 : ∀ kv ∈ l1, ∃ q v, findParam params kv.1 = some q ∧
      convertOne types q kv.2 = .ok v)
    (hp : findParam params k = some p)
    (he : convertOne types p raw = .error err) :
    final_callable pfx types params eligible environ kwargs = .error err := by
  unfold final_callable
  rw [hsplit, convertAll_append_error types params l1 k raw l2 p err h1 hp he]

/-- C6: for an unannotated eligible parameter with a non-None declared
default, the override string is converted by the runtime type of the default
applied as a one-argument constructor, and a conversion exception is not
caught: the call aborts with exactly that exception. -/
theorem C6_default_type_conversion (pfx : String) (types : List (String × Conv))
    (is_method : Option Bool) (params : List Param)
    (environ : List (String × String)) (kwargs : List (String × PyVal))
    (p : Param) (d : PyVal) (e : String)
    (ha : p.annot = Option.none) (hd : p.default = DefaultVal.val d)
    (hdn : d ≠ PyVal.none) :
    convertOne types p e = applyType (typeof d) e ∧
    (∀ err l1 l2,
      applyType (typeof d) e = .error err →
      overridesFor pfx (params_method_safe is_method params) environ
        = l1 ++ (p.name, e) :: l2 →
      findParam params p.name = some p →
      (∀ kv ∈ l1, ∃ q v, findParam params kv.1 = some q ∧
        convertOne types q kv.2 = .ok v) →
      envwrap_call pfx types is_method params environ kwargs = .error err) := by
  have hbase : convertOne types p e = applyType (typeof d) e := by
    simp [convertOne, ha, hd, type_of_default, hdn]
  refine ⟨hbase, ?_⟩
  intro err l1 l2 herr hsplit hfp h1
  unfold envwrap_call
  exact final_callable_error pfx types params _ environ kwargs l1 l2 p.name e p err
    hsplit h1 hfp (by rw [hbase]; exact herr)

/-- C6 witness: `k(x=5)` with `TEST_X=abc`: `int("abc")` raises `ValueError`
and the call aborts with it. -/
theorem C6_default_type_conversion_witness :
    envwrap_call "TEST_" [] Option.none [pX5] [("TEST_X", "abc")] []
      = .error .valueError := by
  have h := C6_default_type_conversion "TEST_" [] Option.none [pX5]
    [("TEST_X", "abc")] [] pX5 (PyVal.int 5) "abc" rfl rfl (by decide)
  refine h.2 .valueError [] [] (by decide) (by decide) rfl ?_
  intro kv hkv
  simp at hkv

/-- C7: when the callable is classified as a method, the eligible set is
exactly the declared names minus the first, and no environment variable can
install an override for the first parameter's name; when it is not classified
as a method, the eligible set is all declared names. -/
theorem C7_method_skip (is_method : Option Bool) (params : List Param)
    (hnd : (params.map Param.name).Nodup) :
    (is_method_explicit is_method params = true →
      params_method_safe is_method params = (params.map Param.name).tail ∧
      ∀ p0 rest, params = p0 :: rest →
        ∀ pfx environ,
          dictGet (overridesFor pfx (params_method_safe is_method params) environ)
            p0.name = Option.none) ∧
    (is_method_explicit is_method params = false →
      params_method_safe is_method params = params.map Param.name) := by
  constructor
  · intro hm
    have hsafe : params_method_safe is_method params = (params.map Param.name).tail := by
      unfold params_method_safe
      rw [hm]
      simp
    refine ⟨hsafe, ?_⟩
    intro p0 rest hps pfx environ
    have hc : (params_method_safe is_method params).contains p0.name = false := by
      rw [hsafe, hps]
      simp only [List.map_cons, List.tail_cons]
      have hmem : p0.name ∉ rest.map Param.name := by
        have := hnd
        rw [hps] at this
        simp only [List.map_cons] at this
        exact (List.nodup_cons.mp this).1
      simpa using hmem
    rw [dictGet_overridesFor, hc]
    simp
  · intro hm
    unfold params_method_safe
    rw [hm]
    simp

/-- C7 witness: `m(self, x=1)` with no explicit flag: eligible set is
`["x"]` and `TEST_SELF` installs nothing for `self`. -/
theorem C7_method_skip_witness :
    params_method_safe Option.none mparams = ["self", "x"].tail ∧
    dictGet (overridesFor "TEST_" (params_method_safe Option.none mparams)
      [("TEST_SELF", "9")]) "self" = Option.none := by
  have h := C7_method_skip Option.none mparams (by decide)
  have h1 := h.1 (by decide)
  refine ⟨?_, ?_⟩
  · rw [h1.1]
    decide
  · exact h1.2 ⟨"self", Option.none, .empty⟩ [⟨"x", Option.none, .val (.int 1)⟩]
      rfl "TEST_" [("TEST_SELF", "9")]

theorem filterKey_dictInsert {α : Type} (q : String → Bool) (m : List (String × α))
    (k : String) (v : α) :
    (dictInsert m k v).filter (fun kv => q kv.1) =
      if q k then dictInsert (m.filter (fun kv => q kv.1)) k v
      else m.filter (fun kv => q kv.1) := by
  induction m with
  | nil => by_cases hq : q k <;> simp [dictInsert, List.filter, hq]
  | cons kv0 rest ih =>
    obtain ⟨k0, v0⟩ := kv0
    by_cases h0 : k0 = k
    · subst h0
      by_cases hq : q k0 <;> simp [dictInsert, List.filter, hq]
    · by_cases hq0 : q k0 <;> by_cases hq : q k <;>
        simp [dictInsert, List.filter, h0, hq0, hq, ih]

theorem filterKey_foldl_env (eligible : List String) (pfx : String)
    (l : List (String × String)) (m1 m2 : List (String × String))
    (h : m1.filter (fun kv => eligible.contains kv.1)
      = m2.filter (fun kv => eligible.contains kv.1)) :
    (l.foldl (envStep pfx) m1).filter (fun kv => eligible.contains kv.1)
      = (l.foldl (envStep pfx) m2).filter (fun kv => eligible.contains kv.1) := by
  induction l generalizing m1 m2 with
  | nil => exact h
  | cons kv rest ih =>
    rw [List.foldl_cons, List.foldl_cons]
    refine ih (envStep pfx m1 kv) (envStep pfx m2 kv) ?_
    unfold envStep
    by_cases hs : pyStartsWith kv.1 pfx
    · rw [if_pos hs, if_pos hs, filterKey_dictInsert, filterKey_dictInsert, h]
    · rw [if_neg hs, if_neg hs]
      exact h

theorem overridesFor_unmatched (pfx : String) (eligible : List String)
    (l1 l2 : List (String × String)) (K V : String)
    (hun : eligible.contains (pyLower (pyDropPre K pfx)) = false) :
    overridesFor pfx eligible (l1 ++ (K, V) :: l2)
      = overridesFor pfx eligible (l1 ++ l2) := by
  unfold overridesFor env_overrides
  rw [List.foldl_append, List.foldl_append, List.foldl_cons]
  refine filterKey_foldl_env eligible pfx l2 _ _ ?_
  unfold envStep
  by_cases hs : pyStartsWith K pfx
  · rw [if_pos hs, filterKey_dictInsert]
    rw [hun]
    simp
  · rw [if_neg hs]

/-- C8: an environment variable starting with the prefix whose stripped,
lower-cased name matches no eligible parameter has no observable effect:
deleting it from the environment leaves the call's outcome — the final
keyword mapping or the raised exception — unchanged. -/
theorem C8_unmatched_env (pfx : String) (types : List (String × Conv))
    (is_method : Option Bool) (params : List Param)
    (l1 l2 : List (String × String)) (K V : String) (kwargs : List (String × PyVal))
    (hstart : pyStartsWith K pfx = true)
    (hun : (params_method_safe is_method params).contains (pyLower (pyDropPre K pfx))
      = false) :
    envwrap_call pfx types is_method params (l1 ++ (K, V) :: l2) kwargs =
      envwrap_call pfx types is_method params (l1 ++ l2) kwargs := by
  clear hstart
  unfold envwrap_call final_callable
  rw [overridesFor_unmatched pfx (params_method_safe is_method params) l1 l2 K V hun]

/-- C8 witness: `TEST_ZZZ` matches the prefix but no parameter of `g(a=1)`;
the call behaves exactly as with an empty environment. -/
theorem C8_unmatched_env_witness :
    envwrap_call "TEST_" [] Option.none [pA] [("TEST_ZZZ", "9")] []
      = envwrap_call "TEST_" [] Option.none [pA] [] [] ∧
    envwrap_call "TEST_" [] Option.none [pA] [] [] = .ok [("a", PyVal.int 1)] := by
  constructor
  · exact C8_unmatched_env "TEST_" [] Option.none [pA] [] [] "TEST_ZZZ" "9" []
      (by decide) (by decide)
  · decide

theorem isPrefixOf_nil_left {α : Type} [BEq α] (l : List α) :
    List.isPrefixOf ([] : List α) l = true := by
  cases l <;> rfl

theorem pyStartsWith_empty (s : String) : pyStartsWith s "" = true := by
  unfold pyStartsWith
  rw [show ("" : String).toList = [] from rfl]
  exact isPrefixOf_nil_left _

theorem pyDropPre_empty (s : String) : pyDropPre s "" = s := by
  unfold pyDropPre
  rw [show ("" : String).toList.length = 0 from rfl, List.drop_zero]
  rfl

theorem envStep_empty (m : List (String × String)) (kv : String × String) :
    envStep "" m kv = dictInsert m (pyLower kv.1) kv.2 := by
  unfold envStep
  simp only [pyStartsWith_empty, if_true, pyDropPre_empty]

theorem dictGet_env_foldl_untouched (l : List (String × String)) (n : String) :
    ∀ acc, (∀ K' ∈ l.map Prod.fst, pyLower K' ≠ n) →
      dictGet (l.foldl (envStep "") acc) n = dictGet acc n := by
  induction l with
  | nil => intro acc _; rfl
  | cons kv rest ih =>
    intro acc h
    obtain ⟨K0, V0⟩ := kv
    rw [List.foldl_cons, envStep_empty]
    rw [ih _ (fun K' hm => h K' (by simp [hm]))]
    rw [dictGet_dictInsert]
    rw [if_neg (h K0 (by simp))]

theorem dictGet_env_foldl_found (environ : List (String × String)) (K V : String) :
    ∀ acc, nodupKeys environ → dictGet environ K = some V →
      (∀ K' ∈ environ.map Prod.fst, pyLower K' = pyLower K → K' = K) →
      dictGet (environ.foldl (envStep "") acc) (pyLower K) = some V := by
  induction environ with
  | nil =>
    intro acc _ hK _
    exact absurd hK (by simp [dictGet])
  | cons kv rest ih =>
    intro acc hnd hK huniq
    obtain ⟨K0, V0⟩ := kv
    rw [List.foldl_cons, envStep_empty]
    by_cases h0 : K0 = K
    · subst h0
      have hV : V0 = V := by
        rw [show dictGet ((K0, V0) :: rest) K0 = some V0 from by simp [dictGet]] at hK
        injection hK
      subst hV
      have hk0 : K0 ∉ rest.map Prod.fst := by
        have := hnd
        unfold nodupKeys at this
        rw [List.map_cons] at this
        exact (List.nodup_cons.mp this).1
      have hrest : ∀ K' ∈ rest.map Prod.fst, pyLower K' ≠ pyLower K0 := by
        intro K' hmem heq
        have hKK : K' = K0 := huniq K' (by simp [hmem]) heq
        rw [hKK] at hmem
        exact hk0 hmem
      rw [dictGet_env_foldl_untouched rest (pyLower K0) _ hrest]
      rw [dictGet_dictInsert]
      simp
    · have hK' : dictGet rest K = some V := by
        rw [show dictGet ((K0, V0) :: rest) K = dictGet rest K from by
          simp [dictGet, h0]] at hK
        exact hK
      have hnd' : nodupKeys rest := by
        have := hnd
        unfold nodupKeys at this ⊢
        rw [List.map_cons] at this
        exact (List.nodup_cons.mp this).2
      exact ih _ hnd' hK' (fun K' hm heq => huniq K' (by simp [hm]) heq)

/-- C10: the prefix is never validated: with the empty prefix, every
environment key passes the prefix test, and any environment variable whose
entire lower-cased name equals an eligible parameter name has its value
installed in the override mapping on every call. -/
theorem C10_empty_pre (is_method : Option Bool) (params : List Param)
    (environ : List (String × String)) (K V : String)
    (hnd : nodupKeys environ)
    (hK : dictGet environ K = some V)
    (huniq : ∀ K' ∈ environ.map Prod.fst, pyLower K' = pyLower K → K' = K)
    (hel : (params_method_safe is_method params).contains (pyLower K) = true) :
    (∀ s : String, pyStartsWith s "" = true) ∧
    dictGet (overridesFor "" (params_method_safe is_method params) environ)
      (pyLower K) = some V := by
  refine ⟨fun s => pyStartsWith_empty s, ?_⟩
  rw [dictGet_overridesFor]
  simp only [hel, if_true]
  exact dictGet_env_foldl_found environ K V [] hnd hK huniq

/-- C10 witness: empty prefix, `g(a=1)`, environment `A=7`: the variable `A`
is installed as the override for `a`. -/
theorem C10_empty_pre_witness :
    dictGet (overridesFor "" (params_method_safe Option.none [pA]) [("A", "7")])
      (pyLower "A") = some "7" := by
  have h := C10_empty_pre Option.none [pA] [("A", "7")] "A" "7"
    (by simp [nodupKeys]) (by decide) ?_ (by decide)
  · exact h.2
  · intro K' hm _
    rw [show ([("A", "7")].map Prod.fst) = ["A"] from rfl] at hm
    rw [List.mem_singleton] at hm
    exact hm

/-- C9: in the `types` fallback branch (no annotation, declared default
exactly `None`), only `KeyError` is caught: a missing entry keeps the raw
string, while a present entry whose constructor raises anything other than
`KeyError` aborts the call with exactly that exception. -/
theorem C9_types_error (pfx : String) (types : List (String × Conv))
    (is_method : Option Bool) (params : List Param)
    (environ : List (String × String)) (kwargs : List (String × PyVal))
    (p : Param) (e : String)
    (ha : p.annot = Option.none) (hd : p.default = DefaultVal.val PyVal.none) :
    (dictGet types p.name = Option.none → convertOne types p e = .ok (.str e)) ∧
    (∀ conv err, dictGet types p.name = some conv → conv e = .error err →
      err ≠ PyExc.keyError → convertOne types p e = .error err) ∧
    (∀ conv err l1 l2, dictGet types p.name = some conv → conv e = .error err →
      err ≠ PyExc.keyError →
      overridesFor pfx (params_method_safe is_method params) environ
        = l1 ++ (p.name, e) :: l2 →
      findParam params p.name = some p →
      (∀ kv ∈ l1, ∃ q v, findParam params kv.1 = some q ∧
        convertOne types q kv.2 = .ok v) →
      envwrap_call pfx types is_method params environ kwargs = .error err) := by
  have herr2 : ∀ conv err, dictGet types p.name = some conv → conv e = .error err →
      err ≠ PyExc.keyError → convertOne types p e = .error err := by
    intro conv err hg herr hne
    have hbase : convertOne types p e =
        match conv e with
        | .ok v => .ok v
        | .error .keyError => .ok (.str e)
        | .error err => .error err := by
      simp [convertOne, ha, hd, hg]
    rw [hbase, herr]
    cases err with
    | keyError => exact absurd rfl hne
    | valueError => rfl
    | typeError => rfl
    | other msg => rfl
  refine ⟨?_, herr2, ?_⟩
  · intro hg
    simp [convertOne, ha, hd, hg]
  · intro conv err l1 l2 hg herr hne hsplit hfp h1
    unfold envwrap_call
    exact final_callable_error pfx types params _ environ kwargs l1 l2 p.name e p err
      hsplit h1 hfp (herr2 conv err hg herr hne)

/-- C9 witness: `h2(a=None)` with `types = {"a": Foo}` where `Foo("x")`
raises `ValueError`: the call aborts with `ValueError`. -/
theorem C9_types_error_witness :
    envwrap_call "TEST_" typesFail Option.none [pNoneDefault] [("TEST_A", "x")] []
      = .error .valueError := by
  have h := C9_types_error "TEST_" typesFail Option.none [pNoneDefault]
    [("TEST_A", "x")] [] pNoneDefault "x" rfl rfl
  refine h.2.2 convFail .valueError [] [] rfl rfl (by decide) (by decide) rfl ?_
  intro kv hkv
  simp at hkv

end Envwrap
